import Mathlib

/-!
# Live audio streaming session manager — verification development

Shallow embedding of the live-chat audio core of the repository
(`src/App.tsx` `setupLiveChat`/`stopLiveChat` and the audio helpers
`decode`/`encode`/`createPcmBlob`/`decodeAudioData`), together with
theorems settling the stated properties of the design.

Modelling conventions:
* JavaScript strings of 8-bit character codes (the `binary` strings fed to
  `btoa`/produced by `atob`) are modelled as `List Nat` of their char codes;
  `String.fromCharCode`/`charCodeAt` are identities on codes below 256 and
  are therefore elided.
* `Float32Array`/number values are modelled as `ℚ`; the scaling and
  truncation performed by the JS engine on Int16Array stores is explicit.
* Byte buffers are `List Nat` (each element < 256); an `Int16Array` view of
  a buffer is the little-endian reinterpretation `bytesToInt16s`.
* Stateful handlers become pure functions from state (and the event payload)
  to state, returning alongside the state any externally visible
  instructions they issued (sends, stops, ...).
-/

namespace LiveAudio

/-! ## PCM codec: transport text encoding (`encode` / `decode`) -/

/-- The base64 alphabet as character codes: A-Z, a-z, 0-9, +, /. -/
def b64chars : List Nat :=
  [65, 66, 67, 68, 69, 70, 71, 72, 73, 74, 75, 76, 77, 78, 79, 80, 81, 82,
   83, 84, 85, 86, 87, 88, 89, 90,
   97, 98, 99, 100, 101, 102, 103, 104, 105, 106, 107, 108, 109, 110, 111,
   112, 113, 114, 115, 116, 117, 118, 119, 120, 121, 122,
   48, 49, 50, 51, 52, 53, 54, 55, 56, 57, 43, 47]

/-- Character code of the base64 digit for a sextet value. -/
def b64char (n : Nat) : Nat := b64chars.getD n 0

/-- Sextet value of a base64 digit character code (inverse table lookup). -/
def b64inv (c : Nat) : Nat := b64chars.indexOf c

/-- Function `btoa`: base64-encode a binary string (list of char codes < 256),
three input bytes per four output characters, `=` (code 61) padding. -/
def btoa : List Nat → List Nat
  | [] => []
  | [a] => [b64char (a / 4), b64char (a % 4 * 16), 61, 61]
  | [a, b] =>
      [b64char (a / 4), b64char (a % 4 * 16 + b / 16), b64char (b % 16 * 4), 61]
  | a :: b :: c :: rest =>
      b64char (a / 4) :: b64char (a % 4 * 16 + b / 16) ::
      b64char (b % 16 * 4 + c / 64) :: b64char (c % 64) :: btoa rest

/-- Function `atob`: base64-decode a string produced by `btoa` (four characters per
three output bytes, with `=` padding marking a short final group). -/
def atob : List Nat → List Nat
  | w :: x :: y :: z :: rest =>
      if y = 61 then
        [b64inv w * 4 + b64inv x / 16]
      else if z = 61 then
        [b64inv w * 4 + b64inv x / 16, b64inv x % 16 * 16 + b64inv y / 4]
      else
        (b64inv w * 4 + b64inv x / 16) :: (b64inv x % 16 * 16 + b64inv y / 4) ::
        (b64inv y % 4 * 64 + b64inv z) :: atob rest
  | _ => []

/-- Source `encode(bytes)`: build the binary string whose char codes are the
bytes, then `btoa` it.  On codes < 256 the string construction is the
identity, so the function is `btoa` on the byte list. -/
def encode (bytes : List Nat) : List Nat := btoa bytes

/-- Source `decode(base64)`: `atob` to a binary string, then read the char
codes back into a byte array; modelled as `atob` on the code list. -/
def decode (base64 : List Nat) : List Nat := atob base64

/-! ## PCM codec: sample scaling (`createPcmBlob` / `decodeAudioData`) -/

/-- Truncation toward zero, as the JS engine applies to a number before
storing it in an `Int16Array` element. -/
def jsTrunc (q : ℚ) : Int := if 0 ≤ q then ⌊q⌋ else -⌊-q⌋

/-- The JS `ToInt16` coercion applied on assignment to an `Int16Array`
element: truncate toward zero, reduce modulo 2^16, reinterpret the residue
as a signed 16-bit value.  There is no clamping: out-of-range magnitudes
wrap around. -/
def toInt16 (x : ℚ) : Int :=
  if jsTrunc x % 65536 < 32768 then jsTrunc x % 65536
  else jsTrunc x % 65536 - 65536

/-- Little-endian byte image of one stored `Int16Array` element
(`new Uint8Array(int16.buffer)` view of one element). -/
def int16ToBytes (v : Int) : List Nat :=
  [(v % 65536).toNat % 256, (v % 65536).toNat / 256]

/-- Byte image of a whole `Int16Array` buffer. -/
def int16sToBytes (l : List Int) : List Nat := (l.map int16ToBytes).flatten

/-- Reinterpret a byte buffer as little-endian signed 16-bit integers
(`new Int16Array(data.buffer)`).  The buffers this development feeds in
always have even length (the JS constructor throws on odd byte length,
which cannot arise from `createPcmBlob`); a dangling final byte is
ignored. -/
def bytesToInt16s : List Nat → List Int
  | lo :: hi :: rest =>
      (if lo + 256 * hi < 32768 then ((lo + 256 * hi : Nat) : Int)
       else ((lo + 256 * hi : Nat) : Int) - 65536) :: bytesToInt16s rest
  | _ => []

/-- The `Blob` payload handed to `sendRealtimeInput`: transport-encoded PCM data
plus a MIME tag carrying the sample rate. -/
structure GeminiBlob where
  data : List Nat
  mimeType : String
  deriving DecidableEq

/-- Source `createPcmBlob(data, sampleRate)`: scale each sample by 32768,
store into an `Int16Array` (JS `ToInt16` wrap, no clamping), serialize the
backing buffer through the transport encoding, and tag with
`audio/pcm;rate=<sampleRate>`. -/
def createPcmBlob (data : List ℚ) (sampleRate : Nat) : GeminiBlob :=
  let int16 := data.map (fun s => toInt16 (s * 32768))
  { data := encode (int16sToBytes int16)
    mimeType := "audio/pcm;rate=" ++ toString sampleRate }

/-- Source `decodeAudioData(data, ctx, sampleRate, numChannels)`: view the
bytes as an `Int16Array`, de-interleave into `numChannels` channels of
`frameCount = length / numChannels` frames, rescale each integer by
dividing by 32768.  The resulting `AudioBuffer` is modelled as its list of
channel-data arrays (the context and sample rate only tag the buffer). -/
def decodeAudioData (data : List Nat) (sampleRate : Nat) (numChannels : Nat) :
    List (List ℚ) :=
  let dataInt16 := bytesToInt16s data
  let frameCount := dataInt16.length / numChannels
  (List.range numChannels).map (fun channel =>
    (List.range frameCount).map (fun i =>
      (dataInt16.getD (i * numChannels + channel) 0 : ℚ) / 32768))

/-! ## Transport encoding round-trip -/

/-- The alphabet table inverts correctly on all sextet values, and no
alphabet character collides with the padding character `=` (code 61). -/
theorem b64_table :
    ∀ k < 64, b64inv (b64char k) = k ∧ b64char k ≠ 61 ∧ b64char k < 128 := by
  decide

/-- Decoding inverts encoding: `atob` inverts `btoa` on every byte sequence (codes < 256). -/
theorem atob_btoa : ∀ b : List Nat, (∀ x ∈ b, x < 256) → atob (btoa b) = b
  | [] => fun _ => rfl
  | [a] => fun h => by
      have ha : a < 256 := h a (by simp)
      have h1 := b64_table (a / 4) (by omega)
      have h2 := b64_table (a % 4 * 16) (by omega)
      show atob [b64char (a / 4), b64char (a % 4 * 16), 61, 61] = [a]
      rw [atob, if_pos rfl, h1.1, h2.1]
      simp only [List.cons.injEq, and_true]
      omega
  | [a, b] => fun h => by
      have ha : a < 256 := h a (by simp)
      have hb : b < 256 := h b (by simp)
      have h1 := b64_table (a / 4) (by omega)
      have h2 := b64_table (a % 4 * 16 + b / 16) (by omega)
      have h3 := b64_table (b % 16 * 4) (by omega)
      show atob [b64char (a / 4), b64char (a % 4 * 16 + b / 16),
        b64char (b % 16 * 4), 61] = [a, b]
      rw [atob, if_neg h3.2.1, if_pos rfl, h1.1, h2.1, h3.1]
      simp only [List.cons.injEq, and_true]
      constructor <;> omega
  | a :: b :: c :: rest => fun h => by
      have ha : a < 256 := h a (by simp)
      have hb : b < 256 := h b (by simp)
      have hc : c < 256 := h c (by simp)
      have ih := atob_btoa rest (fun x hx =>
        h x (List.mem_cons_of_mem _ (List.mem_cons_of_mem _
          (List.mem_cons_of_mem _ hx))))
      have h1 := b64_table (a / 4) (by omega)
      have h2 := b64_table (a % 4 * 16 + b / 16) (by omega)
      have h3 := b64_table (b % 16 * 4 + c / 64) (by omega)
      have h4 := b64_table (c % 64) (by omega)
      show atob (b64char (a / 4) :: b64char (a % 4 * 16 + b / 16) ::
        b64char (b % 16 * 4 + c / 64) :: b64char (c % 64) :: btoa rest)
        = a :: b :: c :: rest
      rw [atob, if_neg h3.2.1, if_neg h4.2.1, h1.1, h2.1, h3.1, h4.1, ih]
      simp only [List.cons.injEq, and_true]
      refine ⟨by omega, by omega, by omega⟩

/-! ## PCM value-level lemmas -/

/-- The coercion `toInt16` always lands in the signed 16-bit range. -/
theorem toInt16_range (x : ℚ) : -32768 ≤ toInt16 x ∧ toInt16 x < 32768 := by
  unfold toInt16
  split <;> omega

/-- Truncation toward zero moves a value by strictly less than 1. -/
theorem jsTrunc_err (q : ℚ) : |q - (jsTrunc q : ℚ)| < 1 := by
  unfold jsTrunc
  split
  case isTrue h =>
    have h1 := Int.floor_le q
    have h2 := Int.sub_one_lt_floor q
    rw [abs_sub_lt_iff]
    constructor <;> linarith
  case isFalse h =>
    have h1 := Int.floor_le (-q)
    have h2 := Int.sub_one_lt_floor (-q)
    rw [abs_sub_lt_iff]
    push_cast
    constructor <;> linarith

/-- Truncation of a value in the representable window stays in it. -/
theorem jsTrunc_mem (q : ℚ) (h1 : -32768 ≤ q) (h2 : q < 32768) :
    -32768 ≤ jsTrunc q ∧ jsTrunc q < 32768 := by
  unfold jsTrunc
  split
  case isTrue h =>
    refine ⟨by have := Int.floor_nonneg.mpr h; omega, ?_⟩
    have hle : (⌊q⌋ : ℚ) ≤ q := Int.floor_le q
    have : (⌊q⌋ : ℚ) < 32768 := lt_of_le_of_lt hle h2
    exact_mod_cast this
  case isFalse h =>
    push_neg at h
    constructor
    · have hle : (⌊-q⌋ : ℚ) ≤ -q := Int.floor_le (-q)
      have hq : (⌊-q⌋ : ℚ) ≤ 32768 := by linarith
      have : ⌊-q⌋ ≤ 32768 := by exact_mod_cast hq
      omega
    · have : (0:Int) ≤ ⌊-q⌋ := Int.floor_nonneg.mpr (by linarith)
      omega

/-- Within the signed 16-bit window the `ToInt16` coercion is just the
truncation: no wrap happens. -/
theorem toInt16_eq (q : ℚ) (h1 : -32768 ≤ jsTrunc q) (h2 : jsTrunc q < 32768) :
    toInt16 q = jsTrunc q := by
  unfold toInt16
  split <;> omega

/-- Every byte of the serialized form of a stored element is a byte. -/
theorem int16ToBytes_lt (v : Int) : ∀ x ∈ int16ToBytes v, x < 256 := by
  intro x hx
  unfold int16ToBytes at hx
  have h1 : 0 ≤ v % 65536 := Int.emod_nonneg _ (by norm_num)
  have h2 : v % 65536 < 65536 := Int.emod_lt_of_pos _ (by norm_num)
  simp only [List.mem_cons, List.not_mem_nil, or_false] at hx
  rcases hx with h | h <;> subst h <;> omega

/-- Every byte of a serialized `Int16Array` buffer is a byte. -/
theorem int16sToBytes_lt (l : List Int) : ∀ x ∈ int16sToBytes l, x < 256 := by
  intro x hx
  unfold int16sToBytes at hx
  simp only [List.mem_flatten, List.mem_map] at hx
  obtain ⟨bs, ⟨v, _, rfl⟩, hxbs⟩ := hx
  exact int16ToBytes_lt v x hxbs

/-- Reading back the two little-endian bytes of an in-range element
recovers it. -/
theorem bytesToInt16s_cons (v : Int) (h1 : -32768 ≤ v) (h2 : v < 32768)
    (rest : List Nat) :
    bytesToInt16s (int16ToBytes v ++ rest) = v :: bytesToInt16s rest := by
  unfold int16ToBytes
  rw [List.cons_append, List.cons_append, List.nil_append, bytesToInt16s]
  simp only [List.cons.injEq, and_true]
  split <;> omega

/-- Deserialization inverts serialization on in-range element lists. -/
theorem bytesToInt16s_int16sToBytes (l : List Int)
    (h : ∀ v ∈ l, -32768 ≤ v ∧ v < 32768) :
    bytesToInt16s (int16sToBytes l) = l := by
  induction l with
  | nil => rfl
  | cons v t ih =>
      have hv := h v (by simp)
      have hstep : int16sToBytes (v :: t) = int16ToBytes v ++ int16sToBytes t := by
        simp [int16sToBytes]
      rw [hstep, bytesToInt16s_cons v hv.1 hv.2,
        ih (fun x hx => h x (List.mem_cons_of_mem _ hx))]

/-- Indexing a list over the range of its length is the list itself. -/
theorem range_map_getD (l : List Int) (f : Int → ℚ) :
    (List.range l.length).map (fun i => f (l.getD i 0)) = l.map f := by
  induction l with
  | nil => simp
  | cons a t ih =>
      rw [List.length_cons, List.range_succ_eq_map, List.map_cons, List.map_map]
      simp only [Function.comp_def, Nat.succ_eq_add_one, List.getD_cons_zero,
        List.getD_cons_succ]
      rw [List.map_cons, ih]

/-- Mono decoding: with one channel, `decodeAudioData` is the element-wise
rescale of the `Int16Array` view. -/
theorem decodeAudioData_one (data : List Nat) (r : Nat) :
    decodeAudioData data r 1
      = [List.map (fun v : Int => (v : ℚ) / 32768) (bytesToInt16s data)] := by
  unfold decodeAudioData
  rw [show List.range 1 = [0] from rfl]
  simp only [Nat.div_one, List.map_cons, List.map_nil, Nat.mul_one, Nat.add_zero]
  rw [range_map_getD (bytesToInt16s data) (fun v : Int => (v : ℚ) / 32768)]

/-- End-to-end value pipeline: encoding through `createPcmBlob` and decoding
through `decode`/`decodeAudioData` at one channel yields exactly the
scaled-truncated-wrapped-rescaled samples. -/
theorem pcm_pipeline (samples : List ℚ) (r r2 : Nat) :
    decodeAudioData (decode (createPcmBlob samples r).data) r2 1
      = [List.map (fun s : ℚ => (toInt16 (s * 32768) : ℚ) / 32768) samples] := by
  show decodeAudioData
    (atob (btoa (int16sToBytes (samples.map (fun s => toInt16 (s * 32768)))))) r2 1 = _
  rw [atob_btoa _ (int16sToBytes_lt _), decodeAudioData_one,
    bytesToInt16s_int16sToBytes _
      (fun v hv => by obtain ⟨s, _, rfl⟩ := List.mem_map.mp hv; exact toInt16_range _),
    List.map_map]
  rfl

/-! ## Claim C7: transport encoding round-trips exactly -/

/-- C7: for every byte sequence `b`, the transport text encoding round-trips
exactly: `decode (encode b) = b`, byte for byte (binary-safe). -/
theorem c7_transport_roundtrip (b : List Nat) (h : ∀ x ∈ b, x < 256) :
    decode (encode b) = b :=
  atob_btoa b h

/-- Witness for C7 at a concrete byte sequence (including a 0 byte, a high
byte, and the byte 61 that collides with the `=` character code). -/
theorem c7_transport_roundtrip_witness :
    (∀ x ∈ [0, 97, 255, 61, 128], x < 256) ∧
      decode (encode [0, 97, 255, 61, 128]) = [0, 97, 255, 61, 128] :=
  ⟨by decide, c7_transport_roundtrip _ (by decide)⟩

/-! ## Claim C6: encoding scales, truncates and wraps; MIME tag -/

/-- C6: `createPcmBlob` multiplies each sample by 32768 and stores it with
the fixed-width `ToInt16` coercion: the stored value is congruent to the
scaled-truncated value modulo 2^16 and lies in the signed 16-bit range
(wrap, not clamp — e.g. the sample 3/2 scales to 49152 and is stored as
-16384, where clamping would give 32767); the packet MIME tag is exactly
`audio/pcm;rate=<sampleRate>`. -/
theorem c6_encode_wrap (samples : List ℚ) (r : Nat) :
    (createPcmBlob samples r).mimeType = "audio/pcm;rate=" ++ toString r ∧
    bytesToInt16s (decode (createPcmBlob samples r).data)
      = samples.map (fun s => toInt16 (s * 32768)) ∧
    (∀ x : ℚ, -32768 ≤ toInt16 x ∧ toInt16 x < 32768 ∧
      (toInt16 x - jsTrunc x) % 65536 = 0) ∧
    toInt16 ((3 / 2 : ℚ) * 32768) = -16384 := by
  refine ⟨rfl, ?_, ?_, ?_⟩
  · show bytesToInt16s (atob (btoa (int16sToBytes
      (samples.map (fun s => toInt16 (s * 32768)))))) = _
    rw [atob_btoa _ (int16sToBytes_lt _),
      bytesToInt16s_int16sToBytes _ (fun v hv => by
        obtain ⟨s, _, rfl⟩ := List.mem_map.mp hv; exact toInt16_range _)]
  · intro x
    refine ⟨(toInt16_range x).1, (toInt16_range x).2, ?_⟩
    unfold toInt16
    split <;> omega
  · have h1 : jsTrunc ((3 / 2 : ℚ) * 32768) = 49152 := by
      unfold jsTrunc
      rw [if_pos (by norm_num)]
      norm_num
    unfold toInt16
    rw [h1]
    decide

/-! ## Claim C4: PCM round-trip error bound -/

/-- One in-window sample round-trips within 16-bit quantization error. -/
theorem sample_roundtrip (s : ℚ) (h1 : -1 ≤ s) (h2 : s < 1) :
    |s - (toInt16 (s * 32768) : ℚ) / 32768| ≤ 1 / 32768 := by
  have hq1 : -32768 ≤ s * 32768 := by linarith
  have hq2 : s * 32768 < 32768 := by linarith
  have hr := jsTrunc_mem (s * 32768) hq1 hq2
  have herr := jsTrunc_err (s * 32768)
  rw [toInt16_eq (s * 32768) hr.1 hr.2]
  have hsplit : s - (jsTrunc (s * 32768) : ℚ) / 32768
      = (s * 32768 - (jsTrunc (s * 32768) : ℚ)) / 32768 := by ring
  rw [hsplit, abs_div, abs_of_pos (show (0:ℚ) < 32768 by norm_num)]
  rw [div_le_div_iff (by norm_num) (by norm_num)]
  nlinarith [abs_nonneg (s * 32768 - (jsTrunc (s * 32768) : ℚ))]

/-- C4 (amended): for every float sequence with values in [-1, 1) — strictly
below 1, since the JS `ToInt16` store wraps the scaled value 32768 of the
sample 1.0 to -32768 — decoding the encoded packet at one channel
reproduces the original samples with maximum absolute error at most
1/32768; and an all-zero 4096-sample block round-trips to an all-zero
4096-sample block exactly. -/
theorem c4_roundtrip_error (samples : List ℚ) (r : Nat)
    (h : ∀ s ∈ samples, -1 ≤ s ∧ s < 1) :
    List.Forall₂ (fun s d : ℚ => |s - d| ≤ 1 / 32768) samples
      ((decodeAudioData (decode (createPcmBlob samples r).data) 24000 1).headD []) ∧
    ((decodeAudioData (decode (createPcmBlob samples r).data) 24000 1).headD []).length
      = samples.length ∧
    decodeAudioData (decode (createPcmBlob (List.replicate 4096 0) r).data) 24000 1
      = [List.replicate 4096 (0 : ℚ)] := by
  rw [pcm_pipeline, pcm_pipeline]
  refine ⟨?_, by simp, ?_⟩
  · simp only [List.headD_cons]
    rw [List.forall₂_map_right_iff]
    rw [List.forall₂_same]
    intro s hs
    exact sample_roundtrip s (h s hs).1 (h s hs).2
  · rw [List.map_replicate]
    have : toInt16 ((0 : ℚ) * 32768) = 0 := by
      norm_num [toInt16, jsTrunc]
    rw [this]
    norm_num

/-- Witness for C4 at the samples 0, 1/2 and -1/2. -/
theorem c4_roundtrip_error_witness :
    (∀ s ∈ [(0 : ℚ), 1/2, -1/2], -1 ≤ s ∧ s < 1) ∧
    (List.Forall₂ (fun s d : ℚ => |s - d| ≤ 1 / 32768) [(0 : ℚ), 1/2, -1/2]
      ((decodeAudioData (decode (createPcmBlob [(0 : ℚ), 1/2, -1/2] 16000).data)
        24000 1).headD []) ∧
    ((decodeAudioData (decode (createPcmBlob [(0 : ℚ), 1/2, -1/2] 16000).data)
        24000 1).headD []).length = 3 ∧
    decodeAudioData (decode (createPcmBlob (List.replicate 4096 0) 16000).data) 24000 1
      = [List.replicate 4096 (0 : ℚ)]) := by
  have hh : ∀ s ∈ [(0 : ℚ), 1/2, -1/2], -1 ≤ s ∧ s < 1 := by
    intro s hs
    simp only [List.mem_cons, List.not_mem_nil, or_false] at hs
    rcases hs with rfl | rfl | rfl <;> constructor <;> norm_num
  exact ⟨hh, c4_roundtrip_error [(0 : ℚ), 1/2, -1/2] 16000 hh⟩

/-- C4 counterexample: the sample 1.0 lies in the claimed interval [-1, 1]
but round-trips to -1.0 — an absolute error of 2, far above 1/32768. -/
theorem c4_counterexample :
    ((-1 : ℚ) ≤ 1 ∧ (1 : ℚ) ≤ 1) ∧
    ((decodeAudioData (decode (createPcmBlob [(1 : ℚ)] 16000).data) 24000 1).headD
        []).getD 0 0 = -1 ∧
    ¬ (|(1 : ℚ) -
        ((decodeAudioData (decode (createPcmBlob [(1 : ℚ)] 16000).data) 24000 1).headD
          []).getD 0 0| ≤ 1 / 32768) := by
  have henc : toInt16 ((1 : ℚ) * 32768) = -32768 := by
    have h1 : jsTrunc ((1 : ℚ) * 32768) = 32768 := by
      unfold jsTrunc
      rw [if_pos (by norm_num)]
      norm_num
    unfold toInt16
    rw [h1]
    decide
  have hdec :
      ((decodeAudioData (decode (createPcmBlob [(1 : ℚ)] 16000).data) 24000 1).headD
        []).getD 0 0 = -1 := by
    rw [pcm_pipeline]
    simp only [List.headD_cons, List.map_cons, List.map_nil, List.getD_cons_zero]
    rw [henc]
    norm_num
  exact ⟨⟨by norm_num, le_refl 1⟩, hdec, by rw [hdec]; norm_num⟩

/-! ## Playback scheduler (audio-output and interruption branches of onmessage) -/

/-- The playback `AudioContext`; only its clock matters to the scheduler. -/
structure AudioCtx where
  currentTime : ℚ
  deriving DecidableEq

/-- Playback-side state touched by the onmessage handler:
`outputAudioContext` (null after teardown), the `nextStartTime` cursor, the
set of active sources (JS `Set` in insertion order, modelled by the ids of
the scheduled sources), and the id counter for fresh sources. -/
structure PlaybackState where
  outputAudioContext : Option AudioCtx
  nextStartTime : ℚ
  outputAudioSources : List Nat
  nextSourceId : Nat
  deriving DecidableEq

/-- The scheduling rule of the audio-output branch:
`nextStartTime = max(nextStartTime, ctx.currentTime)`, the source starts at
that value, then `nextStartTime` advances by the buffer duration.  Returns
the pair (startTime, advanced nextStartTime). -/
def scheduleChunk (nextStartTime currentTime bufferDuration : ℚ) : ℚ × ℚ :=
  (max nextStartTime currentTime, max nextStartTime currentTime + bufferDuration)

/-- Audio-output branch of onmessage: guarded by
`if (base64EncodedAudioString && outputAudioContext.current)`; decodes the
chunk at 24 kHz mono, schedules a fresh source at the cursor and adds it to
the active set.  The returned Bool records whether a decode-and-schedule
happened at all. -/
def handleAudioChunk (st : PlaybackState) (base64Data : Option (List Nat)) :
    PlaybackState × Bool :=
  match base64Data, st.outputAudioContext with
  | some data, some ctx =>
      ({ st with
          nextStartTime :=
            (scheduleChunk st.nextStartTime ctx.currentTime
              ((((decodeAudioData (decode data) 24000 1).headD []).length : ℚ)
                / 24000)).2,
          outputAudioSources := st.outputAudioSources ++ [st.nextSourceId],
          nextSourceId := st.nextSourceId + 1 }, true)
  | _, _ => (st, false)

/-- Start times produced by a sequence of chunk arrivals, each chunk given
as (playback-clock reading at arrival, buffer duration). -/
def scheduleAll (nextStartTime : ℚ) : List (ℚ × ℚ) → List ℚ
  | [] => []
  | (t, d) :: rest =>
      (scheduleChunk nextStartTime t d).1 ::
        scheduleAll (scheduleChunk nextStartTime t d).2 rest

theorem scheduleAll_length (nst : ℚ) (chunks : List (ℚ × ℚ)) :
    (scheduleAll nst chunks).length = chunks.length := by
  induction chunks generalizing nst with
  | nil => rfl
  | cons c rest ih =>
      obtain ⟨t, d⟩ := c
      simp [scheduleAll, ih]

/-- Every scheduled start time is at or after the clock reading at which
its chunk arrived (no source starts in the past). -/
theorem scheduleAll_ge_arrival (nst : ℚ) (chunks : List (ℚ × ℚ)) :
    ∀ i < chunks.length,
      (chunks.getD i (0, 0)).1 ≤ (scheduleAll nst chunks).getD i 0 := by
  induction chunks generalizing nst with
  | nil => intro i hi; simp at hi
  | cons c rest ih =>
      obtain ⟨t, d⟩ := c
      intro i hi
      match i with
      | 0 =>
          simp only [scheduleAll, List.getD_cons_zero, scheduleChunk]
          exact le_max_right nst t
      | j + 1 =>
          simp only [scheduleAll, List.getD_cons_succ]
          exact ih _ j (by simpa using hi)

/-- Consecutive start times are separated by at least the duration of the
earlier buffer. -/
theorem scheduleAll_step (nst : ℚ) (chunks : List (ℚ × ℚ)) :
    ∀ i, i + 1 < chunks.length →
      (scheduleAll nst chunks).getD i 0 + (chunks.getD i (0, 0)).2
        ≤ (scheduleAll nst chunks).getD (i + 1) 0 := by
  induction chunks generalizing nst with
  | nil => intro i hi; simp at hi
  | cons c rest ih =>
      obtain ⟨t, d⟩ := c
      intro i hi
      match i with
      | 0 =>
          cases rest with
          | nil => simp at hi
          | cons c2 rest2 =>
              obtain ⟨t2, d2⟩ := c2
              simp only [scheduleAll, List.getD_cons_zero, List.getD_cons_succ,
                scheduleChunk]
              exact le_max_left _ _
      | j + 1 =>
          simp only [scheduleAll, List.getD_cons_succ]
          exact ih _ j (by simpa using hi)

/-- C1: for every arrival sequence of chunks (arbitrary non-negative clock
readings, non-negative durations), scheduling each chunk at
`max(nextStartTime, currentTime)` and advancing the cursor by the buffer
duration yields start times that are non-decreasing, separated by at least
the preceding chunk duration (no overlap), and never before the clock
reading at scheduling (never in the past). -/
theorem c1_scheduler_no_overlap (chunks : List (ℚ × ℚ))
    (h : ∀ c ∈ chunks, 0 ≤ c.1 ∧ 0 ≤ c.2) :
    (scheduleAll 0 chunks).length = chunks.length ∧
    (∀ i, i + 1 < chunks.length →
      (scheduleAll 0 chunks).getD i 0 + (chunks.getD i (0, 0)).2
        ≤ (scheduleAll 0 chunks).getD (i + 1) 0 ∧
      (scheduleAll 0 chunks).getD i 0 ≤ (scheduleAll 0 chunks).getD (i + 1) 0) ∧
    (∀ i < chunks.length,
      (chunks.getD i (0, 0)).1 ≤ (scheduleAll 0 chunks).getD i 0) := by
  refine ⟨scheduleAll_length 0 chunks, ?_, scheduleAll_ge_arrival 0 chunks⟩
  intro i hi
  have hstep := scheduleAll_step 0 chunks i hi
  have hmem : chunks.getD i (0, 0) ∈ chunks := by
    rw [List.getD_eq_getElem chunks (0, 0) (by omega)]
    exact List.getElem_mem _
  have hd : 0 ≤ (chunks.getD i (0, 0)).2 := (h _ hmem).2
  exact ⟨hstep, by linarith⟩

/-- Witness for C1 at two concrete chunks: one arriving at clock 0 with
duration 1, a second arriving at clock 2 with duration 3. -/
theorem c1_scheduler_no_overlap_witness :
    (∀ c ∈ [((0 : ℚ), (1 : ℚ)), (2, 3)], 0 ≤ c.1 ∧ 0 ≤ c.2) ∧
    ((scheduleAll 0 [((0 : ℚ), (1 : ℚ)), (2, 3)]).length
        = [((0 : ℚ), (1 : ℚ)), (2, 3)].length ∧
     (∀ i, i + 1 < [((0 : ℚ), (1 : ℚ)), (2, 3)].length →
       (scheduleAll 0 [((0 : ℚ), (1 : ℚ)), (2, 3)]).getD i 0
           + ([((0 : ℚ), (1 : ℚ)), (2, 3)].getD i (0, 0)).2
         ≤ (scheduleAll 0 [((0 : ℚ), (1 : ℚ)), (2, 3)]).getD (i + 1) 0 ∧
       (scheduleAll 0 [((0 : ℚ), (1 : ℚ)), (2, 3)]).getD i 0
         ≤ (scheduleAll 0 [((0 : ℚ), (1 : ℚ)), (2, 3)]).getD (i + 1) 0) ∧
     (∀ i < [((0 : ℚ), (1 : ℚ)), (2, 3)].length,
       ([((0 : ℚ), (1 : ℚ)), (2, 3)].getD i (0, 0)).1
         ≤ (scheduleAll 0 [((0 : ℚ), (1 : ℚ)), (2, 3)]).getD i 0)) := by
  have hh : ∀ c ∈ [((0 : ℚ), (1 : ℚ)), (2, 3)], 0 ≤ c.1 ∧ 0 ≤ c.2 := by
    intro c hc
    simp only [List.mem_cons, List.not_mem_nil, or_false] at hc
    rcases hc with rfl | rfl <;> constructor <;> norm_num
  exact ⟨hh, c1_scheduler_no_overlap [((0 : ℚ), (1 : ℚ)), (2, 3)] hh⟩

/-! ## Interruption handling (claim C2) -/

/-- One pass of the interruption for-loop
(`for (const source of outputAudioSources.current.values())`): visit the
sources in set order (JS `Set` iterates in insertion order, and deleting
the element currently being visited does not disturb the remaining
iteration), issue a stop to each and delete it from the set.  First
argument: sources still to visit; second: the current set.  Returns the set
after the loop and the stop instructions issued, in order. -/
def interruptLoop : List Nat → List Nat → List Nat × List Nat
  | [], set => (set, [])
  | s :: rest, set =>
      ((interruptLoop rest (set.erase s)).1,
       s :: (interruptLoop rest (set.erase s)).2)

/-- Interruption branch of onmessage: stop every source currently in the
active set, delete each from the set, and reset `nextStartTime` to 0. -/
def handleInterrupted (st : PlaybackState) : PlaybackState × List Nat :=
  ({ st with
      outputAudioSources := (interruptLoop st.outputAudioSources st.outputAudioSources).1,
      nextStartTime := 0 },
   (interruptLoop st.outputAudioSources st.outputAudioSources).2)

/-- Running the interruption loop over the very set being erased empties
the set and stops every element once, in order. -/
theorem interruptLoop_self (l : List Nat) : interruptLoop l l = ([], l) := by
  induction l with
  | nil => rfl
  | cons s rest ih => simp [interruptLoop, List.erase_cons_head, ih]

/-- C2: processing an interruption signal with k sources in the active set
stops all k of them (each id appears once, in set order, among the issued
stop instructions), leaves the active-source set empty, and resets
`nextStartTime` to zero. -/
theorem c2_interruption_stops_all (st : PlaybackState) :
    (handleInterrupted st).1.outputAudioSources = [] ∧
    (handleInterrupted st).1.nextStartTime = 0 ∧
    (handleInterrupted st).2 = st.outputAudioSources ∧
    (handleInterrupted st).2.length = st.outputAudioSources.length := by
  unfold handleInterrupted
  rw [interruptLoop_self]
  exact ⟨rfl, rfl, rfl, rfl⟩

/-! ## Claim C10: audio chunk after teardown is a no-op -/

/-- C10: an inline audio chunk arriving when the output audio context
reference is null (session already torn down) is a no-op for playback: the
guard `if (base64EncodedAudioString && outputAudioContext.current)` skips
the whole branch, so no decode occurs, no source is scheduled or added to
the active set, `nextStartTime` is unchanged, and (the handler being a
total function) no error is raised. -/
theorem c10_chunk_without_context (st : PlaybackState) (chunk : Option (List Nat))
    (h : st.outputAudioContext = none) :
    handleAudioChunk st chunk = (st, false) := by
  unfold handleAudioChunk
  rw [h]
  cases chunk <;> rfl

/-- Witness for C10: a concrete torn-down state and a non-empty chunk. -/
theorem c10_chunk_without_context_witness :
    (PlaybackState.mk none 5 [3] 7).outputAudioContext = none ∧
    handleAudioChunk (PlaybackState.mk none 5 [3] 7) (some [1, 2])
      = (PlaybackState.mk none 5 [3] 7, false) :=
  ⟨rfl, c10_chunk_without_context _ _ rfl⟩

/-! ## Turn aggregator (transcription branches of onmessage, claim C3) -/

/-- Transcript-side state: the committed turn history and the two
in-progress accumulators. -/
structure TranscriptState where
  liveChatHistory : List String
  liveChatInputTranscription : String
  liveChatOutputTranscription : String
  deriving DecidableEq

/-- Payload of one server message as seen by the transcription branches. -/
structure TranscriptEvent where
  outputFragment : Option String
  inputFragment : Option String
  turnComplete : Bool
  deriving DecidableEq

/-- Transcription section of onmessage.  The fragment branches use
functional updaters (`set (prev => prev + text)`), which append to the
latest state.  The turn-complete branch instead reads the plain variables
`liveChatInputTranscription` / `liveChatOutputTranscription`: those are
const bindings of the component render in which this `setupLiveChat`
closure was created, captured by the onmessage closure when
`ai.live.connect` registered it, and they can never change afterwards.
They therefore appear here as the extra parameters `capturedInput` /
`capturedOutput`, distinct from the live state the updaters act on. -/
def handleTranscript (capturedInput capturedOutput : String)
    (st : TranscriptState) (msg : TranscriptEvent) : TranscriptState :=
  let st1 :=
    match msg.outputFragment with
    | some text =>
        { st with liveChatOutputTranscription :=
            st.liveChatOutputTranscription ++ text }
    | none => st
  let st2 :=
    match msg.inputFragment with
    | some text =>
        { st1 with liveChatInputTranscription :=
            st1.liveChatInputTranscription ++ text }
    | none => st1
  if msg.turnComplete then
    { st2 with
        liveChatHistory := st2.liveChatHistory ++ [capturedInput, capturedOutput],
        liveChatInputTranscription := "",
        liveChatOutputTranscription := "" }
  else st2

/-- C3 divergence: a handler closure created while both transcriptions were
empty receives fragments so that the live accumulators hold exactly
"hello" / "hi there"; the turn-complete signal then appends the stale
captured values "" and "" to the history — not "hello" and "hi there" —
although the accumulators do read back empty afterwards. -/
theorem c3_code_divergence :
    (handleTranscript "" "" (TranscriptState.mk [] "" "")
        (TranscriptEvent.mk (some "hi there") (some "hello") false)).liveChatInputTranscription
      = "hello" ∧
    (handleTranscript "" "" (TranscriptState.mk [] "" "")
        (TranscriptEvent.mk (some "hi there") (some "hello") false)).liveChatOutputTranscription
      = "hi there" ∧
    handleTranscript "" ""
        (handleTranscript "" "" (TranscriptState.mk [] "" "")
          (TranscriptEvent.mk (some "hi there") (some "hello") false))
        (TranscriptEvent.mk none none true)
      = TranscriptState.mk ["", ""] "" "" ∧
    (["", ""] : List String) ≠ ["hello", "hi there"] := by
  refine ⟨rfl, rfl, rfl, by decide⟩

/-! ## Session transmitter (onaudioprocess handler, claim C5) -/

/-- Transmitter state: whether `liveSessionPromise` has resolved, the sends
queued on the still-pending promise (in registration order), and the
packets handed to `session.sendRealtimeInput` so far, in order. -/
structure TransmitterState where
  resolved : Bool
  pending : List GeminiBlob
  sent : List GeminiBlob
  deriving DecidableEq

/-- Handler `onaudioprocess`: take channel 0 of the input block, encode it with
`createPcmBlob(inputData, 16000)`, and chain the send off
`liveSessionPromise.current.then(...)`.  Callbacks registered on the same
pending promise run in registration order once it resolves, and callbacks
registered after resolution run promptly after all earlier ones, so: while
unresolved, the packet joins the pending queue; once resolved, it is sent
directly. -/
def onaudioprocess (st : TransmitterState) (inputData : List ℚ) : TransmitterState :=
  if st.resolved then
    { st with sent := st.sent ++ [createPcmBlob inputData 16000] }
  else
    { st with pending := st.pending ++ [createPcmBlob inputData 16000] }

/-- Resolution of `liveSessionPromise`: every callback queued on it fires,
in registration order, each invoking the session's realtime-input send. -/
def resolveSession (st : TransmitterState) : TransmitterState :=
  if st.resolved then st
  else { resolved := true, pending := [], sent := st.sent ++ st.pending }

/-- Events driving the transmitter. -/
inductive LiveEvent
  | audioTick (inputData : List ℚ)
  | sessionResolved

/-- One transmitter step. -/
def stepTransmitter (st : TransmitterState) (e : LiveEvent) : TransmitterState :=
  match e with
  | .audioTick d => onaudioprocess st d
  | .sessionResolved => resolveSession st

/-- State before any capture: promise pending, nothing queued or sent. -/
def initTransmitter : TransmitterState := ⟨false, [], []⟩

/-- Capture ticks before resolution only grow the pending queue, in capture
order. -/
theorem ticks_before_resolution (blocks : List (List ℚ)) (p s : List GeminiBlob) :
    List.foldl stepTransmitter ⟨false, p, s⟩ (blocks.map LiveEvent.audioTick)
      = ⟨false, p ++ blocks.map (fun b => createPcmBlob b 16000), s⟩ := by
  induction blocks generalizing p with
  | nil => simp
  | cons b rest ih =>
      simp only [List.map_cons, List.foldl_cons, stepTransmitter, onaudioprocess]
      rw [if_neg (by simp)]
      rw [ih]
      simp

/-- C5: all N audio blocks captured before the session promise resolves are
sent when it resolves, in original capture order — no block dropped, none
reordered — because each block's send was chained off the same pending
promise. -/
theorem c5_pending_blocks_flush (blocks : List (List ℚ)) :
    (List.foldl stepTransmitter initTransmitter
        (blocks.map LiveEvent.audioTick ++ [LiveEvent.sessionResolved])).sent
      = blocks.map (fun b => createPcmBlob b 16000) := by
  rw [List.foldl_append]
  show (List.foldl stepTransmitter
    (List.foldl stepTransmitter ⟨false, [], []⟩ (blocks.map LiveEvent.audioTick))
    [LiveEvent.sessionResolved]).sent = _
  rw [ticks_before_resolution]
  simp [stepTransmitter, resolveSession]

/-! ## Session lifecycle: start guard (claim C8) -/

/-- Capabilities and behaviour of the hosting browser relevant to
`setupLiveChat`: presence of `navigator.mediaDevices`, presence of
`navigator.mediaDevices.getUserMedia`, and whether the later microphone
request rejects (with its error message) or succeeds. -/
structure BrowserEnv where
  hasMediaDevices : Bool
  hasGetUserMedia : Bool
  micError : Option String
  deriving DecidableEq

/-- Externally visible outcome of the synchronous part of `setupLiveChat`:
the error slot written via `dispatch SET_ERROR`, the loading flag, and the
number of `ai.live.connect` calls issued. -/
structure SetupOutcome where
  errorMsg : Option String
  loading : Bool
  connectCalls : Nat
  deriving DecidableEq

/-- Function `setupLiveChat`: control flow up to the `ai.live.connect` call: the
capability guard `if (!navigator.mediaDevices || !navigator.mediaDevices
.getUserMedia)` dispatches the fixed error and returns before any session
is opened; otherwise a microphone rejection is caught and surfaced, and
only on success is `ai.live.connect` invoked (exactly once — there is no
retry anywhere on this path). -/
def setupLiveChat (env : BrowserEnv) : SetupOutcome :=
  if !env.hasMediaDevices || !env.hasGetUserMedia then
    { errorMsg := some "Microphone access is not supported in this browser."
      loading := false
      connectCalls := 0 }
  else
    match env.micError with
    | some msg =>
        { errorMsg := some ("Failed to access microphone or set up live chat: " ++ msg)
          loading := false
          connectCalls := 0 }
    | none =>
        { errorMsg := none
          loading := true
          connectCalls := 1 }

/-- C8: when the platform lacks audio-capture capability, `setupLiveChat`
fails immediately: no `ai.live.connect` call is issued (no LiveSession is
opened), the human-readable message is surfaced to the error slot, and no
retry is attempted. -/
theorem c8_capture_unavailable (env : BrowserEnv)
    (h : env.hasMediaDevices = false ∨ env.hasGetUserMedia = false) :
    setupLiveChat env
      = { errorMsg := some "Microphone access is not supported in this browser."
          loading := false
          connectCalls := 0 } := by
  unfold setupLiveChat
  rcases h with h | h <;> rw [h] <;> simp

/-- Witness for C8: a browser without `navigator.mediaDevices`. -/
theorem c8_capture_unavailable_witness :
    ((BrowserEnv.mk false true none).hasMediaDevices = false ∨
      (BrowserEnv.mk false true none).hasGetUserMedia = false) ∧
    setupLiveChat (BrowserEnv.mk false true none)
      = { errorMsg := some "Microphone access is not supported in this browser."
          loading := false
          connectCalls := 0 } :=
  ⟨Or.inl rfl, c8_capture_unavailable _ (Or.inl rfl)⟩

/-! ## Session teardown: stopLiveChat idempotence (claim C9) -/

/-- State touched by `stopLiveChat`: the session-promise reference and the
UI flags it clears. -/
structure LiveChatControl where
  liveSessionPromise : Option Nat
  isLiveChatActive : Bool
  loading : Bool
  deriving DecidableEq

/-- Function `stopLiveChat`: if a session promise is held, chain a close onto it and
null the reference; in every case clear the active and loading flags.  The
returned Bool records whether this call issued a close instruction.  The
function is total — with a null reference it performs no close and nothing
throws. -/
def stopLiveChat (st : LiveChatControl) : LiveChatControl × Bool :=
  match st.liveSessionPromise with
  | some _ =>
      ({ liveSessionPromise := none, isLiveChatActive := false, loading := false },
       true)
  | none =>
      ({ st with isLiveChatActive := false, loading := false }, false)

/-- C9: after the first `stopLiveChat` the session reference is null, so a
second call — even while the first close is still settling — issues no
close instruction (no resource is released twice) and leaves the state
unchanged; being a total function it does not throw. -/
theorem c9_stop_idempotent (st : LiveChatControl) :
    (stopLiveChat st).1.liveSessionPromise = none ∧
    (stopLiveChat (stopLiveChat st).1).2 = false ∧
    (stopLiveChat (stopLiveChat st).1).1 = (stopLiveChat st).1 := by
  obtain ⟨p, a, l⟩ := st
  cases p <;> simp [stopLiveChat]
